import Mathlib

/-!
# Verification of the lil-game interactive move-selection client and service

This development shallowly embeds the parts of the repository that the
specification talks about:

* `src/service/src/tictactoe.rs` — `TicTacToeGame::parse`, `unparse`, `moves`;
* `src/service/src/game_core.rs` — `search`;
* `src/service/src/main.rs`   — the `Select` arm of `my_handler`;
* `src/client/src/main.rs`    — `handle_human_player`'s event loop,
  `clear_lines`, `render_board`.

Rust machine integers stay well inside their ranges here (board indices,
line counts, move ids up to 9), so they are modelled by `Nat`/`Int` without
wrap-around.  Fallible code is modelled with `Except`/`Option`; an
out-of-bounds slice index (a Rust panic) is modelled as `none`.
-/

/-! ## Service: `tictactoe.rs` -/

/-- Error message for a wrong-length board string (tictactoe.rs line 27). -/
def lengthErr : String := "input must be length 9"

/-- Error message for lower-case cells (tictactoe.rs line 33). -/
def lowercaseErr : String := "only upper-case moves allowed"

/-- Error message for other characters (tictactoe.rs line 34, sic). -/
def unexpectedErr : String := "unexpected chacter found in board"

/-- Error message when O has moved more often than X (tictactoe.rs line 39). -/
def tooManyOErr : String := "too many O moves"

/-- Error message when X is more than one move ahead (tictactoe.rs line 43). -/
def tooManyXErr : String := "too many X moves"

/-- The game state `TicTacToeGame` (tictactoe.rs lines 6-10).  The Rust board is
`[char; 9]`; we use a `List Char`, and `parse` only ever builds lists of
length 9. -/
structure TicTacToeGame where
  board : List Char
  player : Char
deriving DecidableEq, Repr

/-- The character-validation and X/O-counting loop of
`TicTacToeGame::parse` (tictactoe.rs lines 30-38).  Returns the board
characters together with the number of `X`s and `O`s, or the first
error going left to right. -/
def scanBoard : List Char → Except String (List Char × Nat × Nat)
  | [] => Except.ok ([], 0, 0)
  | c :: rest =>
    if c = '-' ∨ c = 'X' ∨ c = 'O' then
      match scanBoard rest with
      | Except.ok (b, nx, no) =>
        Except.ok (c :: b,
          (if c = 'X' then nx + 1 else nx),
          (if c = 'O' then no + 1 else no))
      | Except.error e => Except.error e
    else if c = 'x' ∨ c = 'o' then Except.error lowercaseErr
    else Except.error unexpectedErr

/-- The deserializer `TicTacToeGame::parse` (tictactoe.rs lines 25-46).  Rust's
`match num_x - num_o { 0 => .., 1 => .., _ => .. }` on `i32` is written
as an `if` chain over `Int` subtraction. -/
def TicTacToeGame.parse (input : String) : Except String TicTacToeGame :=
  if input.data.length ≠ 9 then Except.error lengthErr
  else
    match scanBoard input.data with
    | Except.error e => Except.error e
    | Except.ok (b, nx, no) =>
      if no > nx then Except.error tooManyOErr
      else if (nx : Int) - (no : Int) = 0 then Except.ok ⟨b, 'X'⟩
      else if (nx : Int) - (no : Int) = 1 then Except.ok ⟨b, 'O'⟩
      else Except.error tooManyXErr

/-- The serializer `TicTacToeGame::unparse` (tictactoe.rs lines 21-23):
`self.board.iter().collect()`. -/
def TicTacToeGame.unparse (g : TicTacToeGame) : String :=
  String.mk g.board

/-- The win test `victory` (tictactoe.rs lines 110-148): the eight 3-in-a-row
patterns, each requiring all three cells to equal `player`. -/
def victory (board : List Char) (player : Char) : Option Char :=
  let lines : List (List Nat) :=
    [[0, 1, 2], [3, 4, 5], [6, 7, 8],
     [0, 3, 6], [1, 4, 7], [2, 5, 8],
     [0, 4, 8], [2, 4, 6]]
  if lines.any (fun l => l.all (fun i => board.getD i '?' = player)) then
    some player
  else
    none

/-- The free-cell test `space_available` (tictactoe.rs lines 154-156). -/
def space_available (board : List Char) : Bool :=
  board.any (fun c => c = '-')

namespace game_core

/-- A game transition `Move` (game_core.rs lines 39-53), instantiated at `TicTacToeGame`.
`end_game` carries the list of winning players when the move ends the
game (`SmallVec<[Player; 1]>` becomes `List Char`). -/
structure Move where
  id : Nat
  next_state : TicTacToeGame
  end_game : Option (List Char)
deriving DecidableEq, Repr

/-- The move chooser `search` (game_core.rs lines 99-102): `&moves[0]`.  The Rust
indexing panics on an empty slice; the panic is modelled as `none`. -/
def search (moves : List Move) : Option Move :=
  moves[0]?

end game_core

/-- The move generator `TicTacToeGame::moves` (tictactoe.rs lines 48-75): for each `i` in
`1..=9` whose cell is free, a move placing the current player there. -/
def TicTacToeGame.moves (g : TicTacToeGame) : List game_core.Move :=
  let next_player := if g.player = 'X' then 'O' else 'X'
  (List.range 9).filterMap (fun j =>
    if g.board.getD j '?' = '-' then
      let next_board := g.board.set j g.player
      let victor := victory next_board g.player
      let avail := space_available next_board
      let end_game :=
        match victor with
        | some p => some [p]
        | none => if ¬ avail then some [] else none
      some { id := j + 1,
             next_state := { board := next_board, player := next_player },
             end_game := end_game }
    else none)

/-- The `Command::Select` arm of `my_handler` (service main.rs lines
132-142), restricted to the fields the claim is about.  The outer
`Option` models the Rust panic (`none` means the handler panicked and
produced no response at all); the inner `Except` is the handler's
`Result` (an error response).  On success the pair is
`(choice.id.to_string(), choice.next_state.board.iter().collect())`. -/
def my_handler_select (state : String) : Option (Except String (String × String)) :=
  match TicTacToeGame.parse state with
  | Except.error e => some (Except.error e)
  | Except.ok game =>
    match game_core.search game.moves with
    | none => none
    | some choice =>
      some (Except.ok (toString choice.id, String.mk choice.next_state.board))

/-! ## Client: `client/src/main.rs`

The interactive round of `handle_human_player` (lines 47-209) is embedded
as a transition system.  One transition (`stepIter`) is one pass through
the inner `loop` at lines 123-188: repaint the query line, enable raw
mode, run the `tokio::select!` race between the pending preview render
and the next terminal event, consume the winner, and finish the
iteration — including, when the winner is `Enter`, the post-loop code at
lines 190-207 and the restart of the outer `loop` at line 86.

The terminal is modelled as a map from line numbers to the text printed
on each line (`Display`).  `crossterm`'s `Print` without a preceding
`Clear(CurrentLine)` overwrites the old characters from column 1 and
leaves any longer tail in place (`overwrite`); `Clear(CurrentLine)`
followed by `Print` replaces the line.  Cursor book-keeping
(`SavePosition`/`RestorePosition`/bare `MoveTo`) changes no line content
and is not modelled.

The `tokio::select!` race is modelled by a boolean `renderWins`: `true`
means the preview-render future completed before the next terminal
event, `false` means the event arrived first, in which case `tokio`
drops (cancels) the render future.  When no render is pending the
pattern `Ok(Some(rendered)) = preview_board(..)` fails to match, the
branch is disabled, and the event is awaited regardless of the
schedule. -/

/-- The terminal screen: the text shown on each line. -/
def Display : Type := Nat → String

/-- Replace the whole contents of line `l` (a `MoveTo` + full-line
write on a cleared line). -/
def setLine (d : Display) (l : Nat) (s : String) : Display :=
  fun j => if j = l then s else d j

/-- Printing at column 1 of line `l` without clearing first: the printed
characters overwrite the old ones and any longer old tail remains. -/
def overwrite (s old : String) : String :=
  String.mk (s.data ++ old.data.drop s.data.length)

/-- Print `s` on line `l` over whatever the line held. -/
def printAt (d : Display) (l : Nat) (s : String) : Display :=
  setLine d l (overwrite s (d l))

/-- The routine `clear_lines` (client main.rs lines 211-221): clear `num_lines`
lines starting at `start_line`. -/
def clear_lines (start_line : Nat) (num_lines : Nat) (d : Display) : Display :=
  match num_lines with
  | 0 => d
  | Nat.succ n => setLine (clear_lines start_line n d) (start_line + n) ""

/-- Helper for `rustLines`: walk the characters, accumulating the
current line (in reverse); a newline emits the accumulated line, and a
non-empty final accumulator is emitted at the end. -/
def linesAux : List Char → List Char → List String
  | [], acc => if acc = [] then [] else [String.mk acc.reverse]
  | c :: rest, acc =>
    if c = '\n' then String.mk acc.reverse :: linesAux rest []
    else linesAux rest (c :: acc)

/-- Rust's `str::lines`: split on newline, with no empty final piece
for a trailing newline.  (The oracle's rendered text contains no `\r`,
so `\r\n` handling is not modelled.) -/
def rustLines (s : String) : List String :=
  linesAux s.data []

/-- Write the lines of a text block downwards from `start`, one line
per display row (the loop of `render_board`, lines 230-234). -/
def render_lines (start : Nat) (ls : List String) (d : Display) : Display :=
  match ls with
  | [] => d
  | l :: rest => render_lines (start + 1) rest (printAt d start l)

/-- The routine `render_board` (client main.rs lines 223-237): clear the extent of
the new text, then print each of its lines. -/
def render_board (start_line : Nat) (rendered : String) (d : Display) : Display :=
  render_lines start_line (rustLines rendered)
    (clear_lines start_line (rustLines rendered).length d)

/-- The spec's `repaint(region_start_line, previous_line_count,
new_text)`: clear the old extent, then `render_board` the new text — the
combination used by `preview_board` (lines 114-115) and by the commit
path (line 193). -/
def repaint (start_line : Nat) (previous_line_count : Nat) (new_text : String)
    (d : Display) : Display :=
  render_board start_line new_text (clear_lines start_line previous_line_count d)

/-- A legal move as the client receives it (`MoveDescription`,
client main.rs lines 293-298). -/
structure MoveDescription where
  move_id : String
  next_board : String
  next_player : String
deriving DecidableEq, Repr

/-- The key codes the loop distinguishes (lines 160-169): `Char c`
covers `'q'`, digits and ignored characters; every other
`KeyCode` falls to the wildcard arm. -/
inductive KeyCode where
  | char (c : Char)
  | enter
  | backspace
  | otherKey
deriving DecidableEq, Repr

/-- What the `EventStream` wait can produce: a key event
(`Some(Ok(Event::Key(..)))`), or anything else — another event kind, a
stream error, or end of stream — which the `other` arm at line 172 only
logs. -/
inductive InputEvent where
  | key (code : KeyCode)
  | other
deriving DecidableEq, Repr

/-- The mutable state of one selection round of `handle_human_player`:
the session's board string (never written by the round), the loop-local
variables of lines 88-96, the raw-mode flag of the terminal, and the
screen contents. -/
structure RoundState where
  game_state : String
  input_choice : String
  preview : Option String
  preview_length : Nat
  max_preview_length : Nat
  raw_mode : Bool
  display : Display

/-- Outcome of one iteration: keep looping, return
`Ok(Ok(desc))` (a committed move), or return `Ok(Err(QuitGame))`. -/
inductive StepOutcome where
  | continueRound (s : RoundState)
  | committed (m : MoveDescription) (s : RoundState)
  | quitGame (s : RoundState)

/-- The round state carried by an outcome. -/
def StepOutcome.stateOf : StepOutcome → RoundState
  | StepOutcome.continueRound s => s
  | StepOutcome.committed _ s => s
  | StepOutcome.quitGame s => s

/-- The committed move, if the outcome is a commit. -/
def StepOutcome.committedMove? : StepOutcome → Option MoveDescription
  | StepOutcome.committed m _ => some m
  | _ => none

/-- Whether the outcome keeps the round going. -/
def StepOutcome.isContinue : StepOutcome → Bool
  | StepOutcome.continueRound _ => true
  | _ => false

/-- Whether the outcome is a commit. -/
def StepOutcome.isCommitted : StepOutcome → Bool
  | StepOutcome.committed _ _ => true
  | _ => false

/-- The move-lookup of the loops at lines 177-187 and 190-196: the
first legal move whose `move_id` equals the typed prefix; the request
issued for it is for that move's `next_board`.  This is the spec's
`maybe_request_preview`. -/
def maybe_request_preview (input_choice : String) (moves : List MoveDescription) :
    Option String :=
  (moves.find? (fun m => m.move_id == input_choice)).map (fun m => m.next_board)

/-- Rust `String::pop`: drop the last character. -/
def stringPop (s : String) : String :=
  String.mk s.data.dropLast

/-- The fixed head of the invalid-selection message. -/
def msgHead : String := "You typed `"

/-- The invalid-selection message of lines 201-203
(`format!("You typed `{}`; but you need to select one of the {} moves
listed above", input_choice, moves.len())`). -/
def msgString (input_choice : String) (numMoves : Nat) : String :=
  msgHead ++ input_choice ++
    "`; but you need to select one of the " ++ toString numMoves ++
    " moves listed above"

/-- A display line that carries (an overlay of) the invalid-selection
message: it starts with the fixed message head. -/
def IsMsgLine (t : String) : Bool :=
  msgHead.data.isPrefixOf t.data

/-- Everything strictly below the query line is either blank or
invalid-selection message residue — in particular no rendered preview
text is on screen there. -/
def Clean (query_line : Nat) (d : Display) : Prop :=
  ∀ j, query_line < j → d j = "" ∨ IsMsgLine (d j) = true

/-- Like `Clean`, but only below the first `pl` preview lines: lines
`query_line + 1 .. query_line + pl` may hold anything (the currently
painted preview of `pl` lines), everything further down is blank or
message residue. -/
def CleanBeyond (query_line pl : Nat) (d : Display) : Prop :=
  ∀ j, query_line + pl < j → d j = "" ∨ IsMsgLine (d j) = true

/-- The pending-preview consistency invariant: a pending render request
is always tagged with the board of a legal move whose id is exactly the
current typed prefix.  It is established by `initRound` (no pending
request) and preserved by every continuing step, because lines 177-187
recompute the request from the final prefix of the iteration. -/
def PreviewInv (moves : List MoveDescription) (s : RoundState) : Prop :=
  ∀ b, s.preview = some b →
    ∃ m, m ∈ moves ∧ m.move_id = s.input_choice ∧ m.next_board = b

/-- Lines 175-187: after a consumed (non-Enter, non-quit) event, clear
the preview region's previous extent and recompute the pending preview
from the (possibly updated) prefix. -/
def finishIter (moves : List MoveDescription) (query_line : Nat)
    (s : RoundState) (painted : Option String) : StepOutcome × Option String :=
  let d := clear_lines (query_line + 1) s.preview_length s.display
  (StepOutcome.continueRound
    { s with display := d,
             preview := maybe_request_preview s.input_choice moves },
   painted)

/-- Lines 190-207 plus the outer-loop restart at line 86: after `break`
(Enter), either commit the matching move (clearing the previous preview
extent first), or print the invalid-selection message and start a fresh
selection attempt with all four loop-local variables re-initialised. -/
def afterBreak (moves : List MoveDescription) (query_line : Nat)
    (s : RoundState) (painted : Option String) : StepOutcome × Option String :=
  match moves.find? (fun m => m.move_id == s.input_choice) with
  | some desc =>
    let d := clear_lines (query_line + 1) s.preview_length s.display
    (StepOutcome.committed desc { s with display := d }, painted)
  | none =>
    let msg_line := query_line + s.max_preview_length + 1
    let d := printAt s.display msg_line (msgString s.input_choice moves.length)
    let d := setLine d (msg_line + 1) ""
    (StepOutcome.continueRound
      { s with display := d,
               input_choice := "",
               preview := none,
               preview_length := 0,
               max_preview_length := 0 },
     painted)

/-- Lines 154-187: handle what the wait produced.  A key event first
disables raw mode (line 156); a non-key result is only logged and the
iteration continues with raw mode still enabled. -/
def afterWait (moves : List MoveDescription) (query_line : Nat)
    (s : RoundState) (ev : InputEvent) (painted : Option String) :
    StepOutcome × Option String :=
  match ev with
  | InputEvent.key code =>
    let s := { s with raw_mode := false }
    match code with
    | KeyCode.char c =>
      if c = 'q' then (StepOutcome.quitGame s, painted)
      else if '0' ≤ c ∧ c ≤ '9' then
        finishIter moves query_line { s with input_choice := s.input_choice.push c } painted
      else finishIter moves query_line s painted
    | KeyCode.enter => afterBreak moves query_line s painted
    | KeyCode.backspace =>
      finishIter moves query_line { s with input_choice := stringPop s.input_choice } painted
    | KeyCode.otherKey => finishIter moves query_line s painted
  | InputEvent.other => finishIter moves query_line s painted

/-- One pass through the inner loop (lines 123-188, plus lines 190-207
on Enter).  `render` is the oracle (deterministic text per board state,
spec §6); `renderWins` is the `tokio::select!` schedule; `ev` is what
the event stream produces at this iteration's wait.  The second
component of the result is the preview text painted this iteration (the
`rendered` binding of line 143), `none` when nothing was painted. -/
def stepIter (moves : List MoveDescription) (query_line : Nat)
    (render : String → String) (renderWins : Bool) (ev : InputEvent)
    (s : RoundState) : StepOutcome × Option String :=
  -- lines 124-134: repaint the query line with the current prefix
  let d0 := setLine s.display query_line ("? " ++ s.input_choice)
  -- line 140: enable_raw_mode; lines 141-153: the select
  match renderWins, s.preview with
  | true, some b =>
    -- lines 143-147: the pending render completes first and is painted
    -- (preview_board, lines 108-117), then the next event is awaited
    let rendered := render b
    let d1 := repaint (query_line + 1) s.preview_length rendered d0
    let pl := (rustLines rendered).length
    afterWait moves query_line
      { s with display := d1,
               raw_mode := true,
               preview := none,
               preview_length := pl,
               max_preview_length := Nat.max s.max_preview_length pl }
      ev (some rendered)
  | _, _ =>
    -- lines 148-152: the event arrives first (or no render is
    -- pending); the render future, if any, is dropped
    afterWait moves query_line
      { s with display := d0,
               raw_mode := true,
               preview := none,
               preview_length := 0 }
      ev none

/-- The loop-local state at the start of a round (lines 88-96), over a
given board string and initial screen. -/
def initRound (game_state : String) (d : Display) : RoundState :=
  { game_state := game_state,
    input_choice := "",
    preview := none,
    preview_length := 0,
    max_preview_length := 0,
    raw_mode := false,
    display := d }

/-- Run a round over a list of scheduled iterations; once the round
ends the remaining inputs are ignored. -/
def runRound (moves : List MoveDescription) (query_line : Nat)
    (render : String → String) (inputs : List (Bool × InputEvent))
    (s : RoundState) : StepOutcome :=
  inputs.foldl
    (fun r inp =>
      match r with
      | StepOutcome.continueRound s' =>
        (stepIter moves query_line render inp.1 inp.2 s').1
      | done => done)
    (StepOutcome.continueRound s)

/-! ## Concrete sample data used to evaluate the theorems -/

/-- A blank screen. -/
def emptyDisp : Display := fun _ => ""

/-- A legal move with id `"1"`. -/
def mv1 : MoveDescription :=
  { move_id := "1", next_board := "B1", next_player := "O" }

/-- A legal move with id `"10"`: `"1"` is a strict prefix of it. -/
def mv10 : MoveDescription :=
  { move_id := "10", next_board := "B10", next_player := "X" }

/-- A sample legal-move list whose ids are `"1"` and `"10"`. -/
def sampleMoves : List MoveDescription := [mv1, mv10]

/-- A sample oracle whose rendering of every board has five lines. -/
def renderFive : String → String :=
  fun b => "<" ++ b ++ ">\nr2\nr3\nr4\nr5"

/-- A mid-round state on a blank screen with typed prefix `"1"`. -/
def sampleS1 : RoundState :=
  { game_state := "G", input_choice := "1", preview := none,
    preview_length := 0, max_preview_length := 0, raw_mode := false,
    display := emptyDisp }

/-- Like `sampleS1` but with typed prefix `"9"`, matching no move. -/
def sampleS9 : RoundState := { sampleS1 with input_choice := "9" }

/-- Like `sampleS1` but with a pending preview request for `"B1"`. -/
def samplePend : RoundState := { sampleS1 with preview := some "B1" }

/-- Two scheduled iterations: type `'1'` (the event wins the race),
then let the pending render win and consume a Backspace. -/
def sampleTrace2 : List (Bool × InputEvent) :=
  [(false, InputEvent.key (KeyCode.char '1')),
   (true, InputEvent.key KeyCode.backspace)]

/-- The trace `sampleTrace2` followed by an Enter on the (empty, non-matching)
prefix. -/
def sampleTrace3 : List (Bool × InputEvent) :=
  sampleTrace2 ++ [(false, InputEvent.key KeyCode.enter)]

/-! ## Pointwise description of the rendering primitives -/

theorem overwrite_empty (s : String) : overwrite s "" = s := by
  cases s with
  | mk data => simp [overwrite]

theorem setLine_apply (d : Display) (l : Nat) (s : String) (j : Nat) :
    setLine d l s j = if j = l then s else d j := rfl

theorem clear_lines_apply (start n : Nat) (d : Display) (l : Nat) :
    clear_lines start n d l = if start ≤ l ∧ l < start + n then "" else d l := by
  induction n with
  | zero => rw [if_neg (by omega)]; rfl
  | succ n ih =>
    show setLine (clear_lines start n d) (start + n) "" l = _
    rw [setLine_apply, ih]
    split_ifs <;> first | rfl | omega

theorem render_lines_apply (ls : List String) (start : Nat) (d : Display) (l : Nat) :
    render_lines start ls d l =
      if start ≤ l ∧ l < start + ls.length then
        overwrite (ls.getD (l - start) "") (d l)
      else d l := by
  induction ls generalizing start d with
  | nil =>
    rw [if_neg (by simp only [List.length_nil]; omega)]; rfl
  | cons x rest ih =>
    show render_lines (start + 1) rest (printAt d start x) l = _
    rw [ih]
    by_cases h : l = start
    · subst h
      rw [if_neg (by omega), if_pos (by simp only [List.length_cons]; omega)]
      simp [printAt, setLine]
    · have hd : printAt d start x l = d l := by
        simp [printAt, setLine_apply, if_neg h]
      rw [hd]
      by_cases h1 : start + 1 ≤ l ∧ l < start + 1 + rest.length
      · rw [if_pos h1, if_pos (by simp only [List.length_cons]; omega)]
        have hidx : l - start = (l - (start + 1)) + 1 := by omega
        rw [hidx, List.getD_cons_succ]
      · rw [if_neg h1, if_neg (by simp only [List.length_cons]; omega)]

theorem render_board_apply (start : Nat) (text : String) (d : Display) (l : Nat) :
    render_board start text d l =
      if start ≤ l ∧ l < start + (rustLines text).length then
        (rustLines text).getD (l - start) ""
      else d l := by
  unfold render_board
  rw [render_lines_apply, clear_lines_apply]
  split_ifs with h
  · rw [overwrite_empty]
  · rfl

theorem repaint_apply (start prev : Nat) (text : String) (d : Display) (l : Nat) :
    repaint start prev text d l =
      if start ≤ l ∧ l < start + (rustLines text).length then
        (rustLines text).getD (l - start) ""
      else if start ≤ l ∧ l < start + prev then "" else d l := by
  unfold repaint
  rw [render_board_apply, clear_lines_apply]

/-- C8: `clear_lines(start, 0)` is a no-op, and repainting twice with
identical arguments leaves the same visible region as repainting
once. -/
theorem claim_C8_idempotent_clearing :
    (∀ (start : Nat) (d : Display), clear_lines start 0 d = d) ∧
    (∀ (start prev : Nat) (text : String) (d : Display),
      repaint start prev text (repaint start prev text d) =
        repaint start prev text d) := by
  constructor
  · intro start d; rfl
  · intro start prev text d
    funext l
    rw [repaint_apply, repaint_apply]
    split_ifs <;> rfl


/-! ## Helper lemmas about move lookup and message lines -/

theorem isPrefixOf_append_self (l t : List Char) : l.isPrefixOf (l ++ t) = true := by
  induction l with
  | nil => simp [List.isPrefixOf]
  | cons c cs ih => simp [List.isPrefixOf, ih]

theorem IsMsgLine_overwrite (c : String) (n : Nat) (old : String) :
    IsMsgLine (overwrite (msgString c n) old) = true := by
  unfold IsMsgLine overwrite msgString
  simp only [String.data_append, List.append_assoc]
  exact isPrefixOf_append_self _ _

theorem find?_move_eq_none_iff (moves : List MoveDescription) (p : String) :
    moves.find? (fun m => m.move_id == p) = none ↔ ∀ m ∈ moves, m.move_id ≠ p := by
  rw [List.find?_eq_none]
  constructor
  · intro h m hm he
    exact h m hm (by simp [he])
  · intro h m hm hb
    exact h m hm (by simpa using hb)

theorem find?_move_unique (moves : List MoveDescription) (p : String)
    (hn : (moves.map MoveDescription.move_id).Nodup) (m : MoveDescription)
    (hm : m ∈ moves) (hid : m.move_id = p) :
    moves.find? (fun x => x.move_id == p) = some m := by
  induction moves with
  | nil => cases hm
  | cons y rest ih =>
    rw [List.map_cons, List.nodup_cons] at hn
    rcases List.mem_cons.mp hm with h | h
    · subst h
      exact List.find?_cons_of_pos _ (by simp [hid])
    · have hy : ¬ (y.move_id = p) := by
        intro hcontra
        apply hn.1
        rw [hcontra, ← hid]
        exact List.mem_map_of_mem _ h
      rw [List.find?_cons_of_neg _ (by simpa using hy)]
      exact ih hn.2 h

theorem previewInv_of_request (moves : List MoveDescription) (s : RoundState)
    (hp : s.preview = maybe_request_preview s.input_choice moves) :
    PreviewInv moves s := by
  intro b hb
  rw [hp] at hb
  unfold maybe_request_preview at hb
  cases hfind : moves.find? (fun m => m.move_id == s.input_choice) with
  | none => rw [hfind] at hb; cases hb
  | some m =>
    rw [hfind] at hb
    simp only [Option.map_some'] at hb
    have hmem := List.mem_of_find?_eq_some hfind
    have hpred := List.find?_some hfind
    simp only [beq_iff_eq] at hpred
    injection hb with h
    exact ⟨m, hmem, hpred, h⟩

theorem preview_none_of_no_match (moves : List MoveDescription) (s : RoundState)
    (hinv : PreviewInv moves s)
    (hnm : ∀ m ∈ moves, m.move_id ≠ s.input_choice) :
    s.preview = none := by
  cases hp : s.preview with
  | none => rfl
  | some b =>
    obtain ⟨m, hm, hid, -⟩ := hinv b hp
    exact absurd hid (hnm m hm)

/-! ## The painted text and the outcome of an iteration -/

theorem finishIter_snd (moves : List MoveDescription) (q : Nat) (s : RoundState)
    (p : Option String) : (finishIter moves q s p).2 = p := rfl

theorem afterBreak_snd (moves : List MoveDescription) (q : Nat) (s : RoundState)
    (p : Option String) : (afterBreak moves q s p).2 = p := by
  unfold afterBreak
  split <;> rfl

theorem afterWait_snd (moves : List MoveDescription) (q : Nat) (s : RoundState)
    (ev : InputEvent) (p : Option String) : (afterWait moves q s ev p).2 = p := by
  unfold afterWait
  cases ev with
  | key code =>
    cases code with
    | char c =>
      dsimp only
      split_ifs <;> rfl
    | enter => exact afterBreak_snd ..
    | backspace => rfl
    | otherKey => rfl
  | other => rfl

theorem finishIter_continue (moves : List MoveDescription) (q : Nat)
    (s : RoundState) (p : Option String) (s' : RoundState)
    (h : (finishIter moves q s p).1 = StepOutcome.continueRound s') :
    s'.preview = maybe_request_preview s'.input_choice moves := by
  unfold finishIter at h
  cases h
  rfl

theorem afterBreak_continue (moves : List MoveDescription) (q : Nat)
    (s : RoundState) (p : Option String) (s' : RoundState)
    (h : (afterBreak moves q s p).1 = StepOutcome.continueRound s') :
    s'.preview = none ∧ s'.input_choice = "" := by
  unfold afterBreak at h
  split at h
  · cases h
  · cases h
    exact ⟨rfl, rfl⟩

theorem afterWait_continue (moves : List MoveDescription) (q : Nat)
    (s : RoundState) (ev : InputEvent) (p : Option String) (s' : RoundState)
    (h : (afterWait moves q s ev p).1 = StepOutcome.continueRound s') :
    s'.preview = maybe_request_preview s'.input_choice moves ∨
      (s'.preview = none ∧ s'.input_choice = "") := by
  unfold afterWait at h
  cases ev with
  | key code =>
    cases code with
    | char c =>
      dsimp only at h
      split_ifs at h
      all_goals exact Or.inl (finishIter_continue _ _ _ _ _ h)
    | enter => exact Or.inr (afterBreak_continue _ _ _ _ _ h)
    | backspace => exact Or.inl (finishIter_continue _ _ _ _ _ h)
    | otherKey => exact Or.inl (finishIter_continue _ _ _ _ _ h)
  | other => exact Or.inl (finishIter_continue _ _ _ _ _ h)

/-- C1: under the pending-preview invariant (all move ids are non-empty
decimal strings, and a pending request is always tagged with the move
matched by the current prefix): (a) any preview text painted during an
iteration is the oracle's rendering of the move whose id is exactly the
typed prefix current at the moment the reply is observed — a reply
requested for an abandoned prefix is never painted, because a prefix
mutation replaces the pending request before the next wait; (b) after
any continuing iteration (in particular after each of two prefix
mutations P1, P2 processed while the reply is still outstanding — the
event side winning the race cancels the in-flight render), the pending
request is recomputed from the final prefix alone: it is the
exact-match lookup of the new prefix, or nothing when the new prefix
matches no move id, never the request for the superseded prefix; and
the invariant is preserved. -/
theorem claim_C1_no_stale_preview (moves : List MoveDescription) (q : Nat)
    (render : String → String) (renderWins : Bool) (ev : InputEvent)
    (s : RoundState)
    (hinv : PreviewInv moves s)
    (hids : ∀ m ∈ moves, m.move_id ≠ "") :
    (∀ t, (stepIter moves q render renderWins ev s).2 = some t →
      ∃ m ∈ moves, m.move_id = s.input_choice ∧ t = render m.next_board) ∧
    (∀ s', (stepIter moves q render renderWins ev s).1 = StepOutcome.continueRound s' →
      s'.preview = maybe_request_preview s'.input_choice moves ∧
        PreviewInv moves s') := by
  constructor
  · intro t ht
    cases renderWins with
    | false =>
      rw [show (stepIter moves q render false ev s).2 = none from by
        cases hp : s.preview <;> simp [stepIter, hp, afterWait_snd]] at ht
      cases ht
    | true =>
      cases hp : s.preview with
      | none =>
        rw [show (stepIter moves q render true ev s).2 = none from by
          simp [stepIter, hp, afterWait_snd]] at ht
        cases ht
      | some b =>
        rw [show (stepIter moves q render true ev s).2 = some (render b) from by
          simp [stepIter, hp, afterWait_snd]] at ht
        obtain ⟨m, hm, hid, hb⟩ := hinv b hp
        injection ht with ht
        exact ⟨m, hm, hid, by rw [← ht, hb]⟩
  · intro s' hs'
    have hshape :
        s'.preview = maybe_request_preview s'.input_choice moves ∨
          (s'.preview = none ∧ s'.input_choice = "") := by
      cases renderWins with
      | false =>
        cases hp : s.preview <;>
          · simp only [stepIter, hp] at hs'
            exact afterWait_continue _ _ _ _ _ _ hs'
      | true =>
        cases hp : s.preview <;>
          · simp only [stepIter, hp] at hs'
            exact afterWait_continue _ _ _ _ _ _ hs'
    have hreq : s'.preview = maybe_request_preview s'.input_choice moves := by
      rcases hshape with h | ⟨h1, h2⟩
      · exact h
      · rw [h1, h2]
        unfold maybe_request_preview
        rw [(find?_move_eq_none_iff moves "").mpr (fun m hm => hids m hm)]
        rfl
    exact ⟨hreq, previewInv_of_request _ _ hreq⟩

/-- Witness: in `samplePend` the prefix is `"1"` and a render for board
`"B1"` is pending; when the render wins the race the painted text is
the rendering of the move whose id is the current prefix. -/
theorem claim_C1_witness :
    ∃ m ∈ sampleMoves, m.move_id = samplePend.input_choice ∧
      renderFive "B1" = renderFive m.next_board :=
  (claim_C1_no_stale_preview sampleMoves 5 renderFive true
      (InputEvent.key KeyCode.backspace) samplePend
      (by intro b hb; injection hb with h; exact ⟨mv1, by decide, rfl, h⟩)
      (by decide)).1
    (renderFive "B1") rfl

/-- C2: with distinct move ids, Enter on a prefix equal to some move's
id always ends the round as `Committed` with exactly that move and
leaves the board state unchanged; Enter on a prefix matching no id
leaves the board state unchanged and the round continues awaiting
input. -/
theorem claim_C2_round_termination (moves : List MoveDescription) (q : Nat)
    (render : String → String) (renderWins : Bool) (s : RoundState)
    (hn : (moves.map MoveDescription.move_id).Nodup) :
    (∀ m ∈ moves, m.move_id = s.input_choice →
      (stepIter moves q render renderWins (InputEvent.key KeyCode.enter) s).1.committedMove? =
          some m ∧
        (stepIter moves q render renderWins (InputEvent.key KeyCode.enter) s).1.stateOf.game_state =
          s.game_state) ∧
    ((∀ m ∈ moves, m.move_id ≠ s.input_choice) →
      (stepIter moves q render renderWins (InputEvent.key KeyCode.enter) s).1.isContinue = true ∧
        (stepIter moves q render renderWins (InputEvent.key KeyCode.enter) s).1.stateOf.game_state =
          s.game_state) := by
  constructor
  · intro m hm hid
    have hfind : moves.find? (fun x => x.move_id == s.input_choice) = some m :=
      find?_move_unique moves s.input_choice hn m hm hid
    cases renderWins <;> cases hp : s.preview <;>
      simp [stepIter, hp, afterWait, afterBreak, hfind,
        StepOutcome.committedMove?, StepOutcome.stateOf]
  · intro hnm
    have hfind : moves.find? (fun x => x.move_id == s.input_choice) = none :=
      (find?_move_eq_none_iff moves s.input_choice).mpr hnm
    cases renderWins <;> cases hp : s.preview <;>
      simp [stepIter, hp, afterWait, afterBreak, hfind,
        StepOutcome.isContinue, StepOutcome.stateOf]

/-- Witness: Enter in `sampleS1` (prefix `"1"`) commits `mv1` and keeps
the board string. -/
theorem claim_C2_witness :
    (stepIter sampleMoves 5 renderFive false (InputEvent.key KeyCode.enter) sampleS1).1.committedMove? =
        some mv1 ∧
      (stepIter sampleMoves 5 renderFive false (InputEvent.key KeyCode.enter) sampleS1).1.stateOf.game_state =
        sampleS1.game_state :=
  (claim_C2_round_termination sampleMoves 5 renderFive false sampleS1
      (by decide)).1 mv1 (by decide) (by decide)

/-- C3: a preview render request is issued exactly when the typed
prefix is a complete match of some legal move's id, and (with distinct
ids) the request is for that move's resulting board — so a strict
prefix of a longer id never triggers a request for the longer id, and a
non-matching prefix triggers no request. -/
theorem claim_C3_exact_match_gating (p : String) (moves : List MoveDescription)
    (hn : (moves.map MoveDescription.move_id).Nodup) :
    ((maybe_request_preview p moves).isSome = true ↔ ∃ m ∈ moves, m.move_id = p) ∧
    (∀ m ∈ moves, m.move_id = p →
      maybe_request_preview p moves = some m.next_board) := by
  constructor
  · constructor
    · intro h
      unfold maybe_request_preview at h
      cases hfind : moves.find? (fun m => m.move_id == p) with
      | none => rw [hfind] at h; cases h
      | some m =>
        exact ⟨m, List.mem_of_find?_eq_some hfind,
          by simpa using List.find?_some hfind⟩
    · intro ⟨m, hm, hid⟩
      unfold maybe_request_preview
      cases hfind : moves.find? (fun x => x.move_id == p) with
      | none =>
        exact absurd hid ((find?_move_eq_none_iff moves p).mp hfind m hm)
      | some m' => rfl
  · intro m hm hid
    unfold maybe_request_preview
    rw [find?_move_unique moves p hn m hm hid]
    rfl

/-- Witness: with ids `"1"` and `"10"`, prefix `"1"` requests a preview
of move `"1"`'s board — not `"10"`'s — and prefix `"7"` requests
nothing. -/
theorem claim_C3_witness :
    maybe_request_preview "1" sampleMoves = some "B1" :=
  (claim_C3_exact_match_gating "1" sampleMoves (by decide)).2 mv1 (by decide) rfl

/-- An Enter on a prefix matching no move id (with no render pending)
always ends the iteration with the invalid-selection message printed
and a fresh selection attempt: prefix cleared, preview bookkeeping and
the attempt-local maximum reset, raw mode off. -/
theorem stepIter_invalid_enter (moves : List MoveDescription) (q : Nat)
    (render : String → String) (renderWins : Bool) (s : RoundState)
    (hp : s.preview = none)
    (hfind : moves.find? (fun m => m.move_id == s.input_choice) = none) :
    stepIter moves q render renderWins (InputEvent.key KeyCode.enter) s =
      (StepOutcome.continueRound
        { s with
            display :=
              setLine
                (printAt (setLine s.display q ("? " ++ s.input_choice))
                  (q + s.max_preview_length + 1)
                  (msgString s.input_choice moves.length))
                (q + s.max_preview_length + 1 + 1) "",
            input_choice := "",
            preview := none,
            preview_length := 0,
            max_preview_length := 0,
            raw_mode := false },
       none) := by
  cases renderWins <;>
    simp [stepIter, hp, afterWait, afterBreak, hfind]

/-- After the invalid-Enter step, the message line (placed from the
attempt-local maximum preview height) holds exactly the formatted
message, provided it was blank before. -/
theorem invalid_msg_line_content (s : RoundState) (q : Nat)
    (moves : List MoveDescription)
    (hline : s.display (q + s.max_preview_length + 1) = "") :
    setLine
        (printAt (setLine s.display q ("? " ++ s.input_choice))
          (q + s.max_preview_length + 1)
          (msgString s.input_choice moves.length))
        (q + s.max_preview_length + 1 + 1) "" (q + s.max_preview_length + 1) =
      msgString s.input_choice moves.length := by
  rw [setLine_apply, if_neg (by omega)]
  unfold printAt
  rw [setLine_apply, if_pos rfl, setLine_apply, if_neg (by omega), hline,
    overwrite_empty]

/-- Counterexample to C4 as stated: in `sampleS9` the typed prefix is
`"9"` and matches no move id; after Enter the round continues but the
prefix is cleared to `""` (the outer loop at line 86 re-initialises
`input_choice`), not retained as `"9"`. -/
theorem claim_C4_counterexample :
    (stepIter sampleMoves 5 renderFive false (InputEvent.key KeyCode.enter) sampleS9).1.isContinue =
        true ∧
      (stepIter sampleMoves 5 renderFive false (InputEvent.key KeyCode.enter) sampleS9).1.stateOf.input_choice =
        "" ∧
      sampleS9.input_choice = "9" ∧ ("" : String) ≠ "9" :=
  ⟨rfl, rfl, rfl, by decide⟩

/-- C4 (amended): Enter on a non-matching prefix emits the message
`You typed `...`; but you need to select one of the N moves listed
above` with N the true number of legal moves, does not mutate the board
state, and keeps the round open — but the typed prefix is cleared
(reset to empty) for the next selection attempt, not retained. -/
theorem claim_C4_amended_invalid_selection (moves : List MoveDescription)
    (q : Nat) (render : String → String) (renderWins : Bool) (s : RoundState)
    (hinv : PreviewInv moves s)
    (hnm : ∀ m ∈ moves, m.move_id ≠ s.input_choice)
    (hline : s.display (q + s.max_preview_length + 1) = "") :
    (stepIter moves q render renderWins (InputEvent.key KeyCode.enter) s).1.isContinue = true ∧
    (stepIter moves q render renderWins (InputEvent.key KeyCode.enter) s).1.stateOf.display
        (q + s.max_preview_length + 1) = msgString s.input_choice moves.length ∧
    (stepIter moves q render renderWins (InputEvent.key KeyCode.enter) s).1.stateOf.game_state =
      s.game_state ∧
    (stepIter moves q render renderWins (InputEvent.key KeyCode.enter) s).1.stateOf.input_choice =
      "" := by
  have hp := preview_none_of_no_match moves s hinv hnm
  have hfind := (find?_move_eq_none_iff moves s.input_choice).mpr hnm
  rw [stepIter_invalid_enter moves q render renderWins s hp hfind]
  exact ⟨rfl, invalid_msg_line_content s q moves hline, rfl, rfl⟩

/-- Witness: Enter on prefix `"9"` in `sampleS9` prints the message and
clears the prefix. -/
theorem claim_C4_amended_witness :
    (stepIter sampleMoves 5 renderFive false (InputEvent.key KeyCode.enter) sampleS9).1.isContinue =
        true ∧
      (stepIter sampleMoves 5 renderFive false (InputEvent.key KeyCode.enter) sampleS9).1.stateOf.display
          (5 + sampleS9.max_preview_length + 1) =
        msgString sampleS9.input_choice sampleMoves.length ∧
      (stepIter sampleMoves 5 renderFive false (InputEvent.key KeyCode.enter) sampleS9).1.stateOf.game_state =
        sampleS9.game_state ∧
      (stepIter sampleMoves 5 renderFive false (InputEvent.key KeyCode.enter) sampleS9).1.stateOf.input_choice =
        "" :=
  claim_C4_amended_invalid_selection sampleMoves 5 renderFive false sampleS9
    (by intro b hb; cases hb) (by decide) rfl

/-- Raw mode after a consumed key event is always off, whatever the
key: `disable_raw_mode` at line 156 runs before the key is
dispatched. -/
theorem afterWait_key_raw (moves : List MoveDescription) (q : Nat)
    (s : RoundState) (code : KeyCode) (p : Option String) :
    ((afterWait moves q s (InputEvent.key code) p).1).stateOf.raw_mode = false := by
  unfold afterWait
  cases code with
  | char c =>
    dsimp only
    split_ifs <;> rfl
  | enter =>
    dsimp only
    unfold afterBreak
    split <;> rfl
  | backspace => rfl
  | otherKey => rfl

/-- The wildcard arm at line 172 does not touch the raw-mode flag. -/
theorem afterWait_other_raw (moves : List MoveDescription) (q : Nat)
    (s : RoundState) (p : Option String) :
    ((afterWait moves q s InputEvent.other p).1).stateOf.raw_mode = s.raw_mode := rfl

/-- Counterexample to C6 as stated: a non-key result of the wait (the
`other` arm at line 172: another event kind, a stream error, or end of
stream) is a path out of the wait on which raw mode is not exited — the
iteration continues with the terminal still raw. -/
theorem claim_C6_counterexample :
    sampleS9.raw_mode = false ∧
      (stepIter sampleMoves 5 renderFive false InputEvent.other sampleS9).1.isContinue = true ∧
      (stepIter sampleMoves 5 renderFive false InputEvent.other sampleS9).1.stateOf.raw_mode =
        true :=
  ⟨rfl, rfl, rfl⟩

/-- C6 (amended): raw mode is entered before every wait and is exited
immediately after a key event is consumed — on every key path,
including the cancel/race path where the render wins and the key is
then awaited — but when the wait yields a non-key result (another event
kind, a stream error, or end of stream) raw mode is left enabled until
the next wait, so an error exit on such a path can leave the terminal
raw. -/
theorem claim_C6_amended_raw_mode (moves : List MoveDescription) (q : Nat)
    (render : String → String) (s : RoundState) :
    (∀ (renderWins : Bool) (code : KeyCode),
      (stepIter moves q render renderWins (InputEvent.key code) s).1.stateOf.raw_mode = false) ∧
    (∀ renderWins : Bool,
      (stepIter moves q render renderWins InputEvent.other s).1.stateOf.raw_mode = true) := by
  constructor
  · intro renderWins code
    cases renderWins <;> cases hp : s.preview <;>
      · simp only [stepIter, hp]
        exact afterWait_key_raw ..
  · intro renderWins
    cases renderWins <;> cases hp : s.preview <;>
      · simp only [stepIter, hp]
        exact afterWait_other_raw ..

/-- Counterexample to C7 as stated: run the round `type '1'; let the
5-line render paint (attempt maximum becomes 5); Backspace; Enter on
the now-empty prefix`.  The invalid Enter restarts the outer loop,
which re-declares `max_preview_length = 0` — the round-wide maximum 5
is forgotten between selection attempts of the same round. -/
theorem claim_C7_counterexample :
    (runRound sampleMoves 5 renderFive sampleTrace2 (initRound "G" emptyDisp)).stateOf.max_preview_length =
        5 ∧
      (runRound sampleMoves 5 renderFive sampleTrace3 (initRound "G" emptyDisp)).stateOf.max_preview_length =
        0 ∧
      (runRound sampleMoves 5 renderFive sampleTrace3 (initRound "G" emptyDisp)).isContinue =
        true ∧
      (5 : Nat) ≠ 0 :=
  ⟨rfl, rfl, rfl, by decide⟩

/-- C7 (amended): the invalid-selection message is placed just past
`query_line` plus the maximum preview height observed during the
current selection attempt — the maximum since the last Enter, not over
the whole round: the outer loop resets it to 0 on every invalid
Enter. -/
theorem claim_C7_amended_message_placement (moves : List MoveDescription)
    (q : Nat) (render : String → String) (renderWins : Bool) (s : RoundState)
    (hinv : PreviewInv moves s)
    (hnm : ∀ m ∈ moves, m.move_id ≠ s.input_choice)
    (hline : s.display (q + s.max_preview_length + 1) = "") :
    (stepIter moves q render renderWins (InputEvent.key KeyCode.enter) s).1.stateOf.display
        (q + s.max_preview_length + 1) = msgString s.input_choice moves.length ∧
    (stepIter moves q render renderWins (InputEvent.key KeyCode.enter) s).1.stateOf.max_preview_length =
      0 := by
  have hp := preview_none_of_no_match moves s hinv hnm
  have hfind := (find?_move_eq_none_iff moves s.input_choice).mpr hnm
  rw [stepIter_invalid_enter moves q render renderWins s hp hfind]
  exact ⟨invalid_msg_line_content s q moves hline, rfl⟩

/-- Witness: Enter on prefix `"9"` in `sampleS9` places the message at
line `5 + 0 + 1` and resets the attempt maximum. -/
theorem claim_C7_amended_witness :
    (stepIter sampleMoves 5 renderFive false (InputEvent.key KeyCode.enter) sampleS9).1.stateOf.display
        (5 + sampleS9.max_preview_length + 1) =
      msgString sampleS9.input_choice sampleMoves.length ∧
    (stepIter sampleMoves 5 renderFive false (InputEvent.key KeyCode.enter) sampleS9).1.stateOf.max_preview_length =
      0 :=
  claim_C7_amended_message_placement sampleMoves 5 renderFive false sampleS9
    (by intro b hb; cases hb) (by decide) rfl

/-! ## Cleanliness of the preview region -/

theorem clean_setLine_query (q : Nat) (d : Display) (t : String)
    (h : Clean q d) : Clean q (setLine d q t) := by
  intro j hj
  rw [setLine_apply, if_neg (by omega)]
  exact h j hj

theorem cleanBeyond_of_clean (q pl : Nat) (d : Display) (h : Clean q d) :
    CleanBeyond q pl d :=
  fun j hj => h j (by omega)

theorem clean_clear_of_beyond (q pl : Nat) (d : Display)
    (h : CleanBeyond q pl d) : Clean q (clear_lines (q + 1) pl d) := by
  intro j hj
  rw [clear_lines_apply]
  split_ifs with hin
  · exact Or.inl rfl
  · exact h j (by omega)

theorem cleanBeyond_repaint (q pl : Nat) (text : String) (d : Display)
    (h : Clean q d) :
    CleanBeyond q (rustLines text).length (repaint (q + 1) pl text d) := by
  intro j hj
  rw [repaint_apply]
  split_ifs with h1 h2
  · exact absurd h1.2 (by omega)
  · exact Or.inl rfl
  · exact h j (by omega)

theorem clean_msg_lines (q maxl n : Nat) (c : String) (d : Display)
    (h : Clean q d) :
    Clean q
      (setLine (printAt d (q + maxl + 1) (msgString c n)) (q + maxl + 1 + 1) "") := by
  intro j hj
  rw [setLine_apply]
  split_ifs with h1
  · exact Or.inl rfl
  · unfold printAt
    rw [setLine_apply]
    split_ifs with h2
    · exact Or.inr (IsMsgLine_overwrite c n _)
    · exact h j hj

theorem finishIter_not_committed (moves : List MoveDescription) (q : Nat)
    (s : RoundState) (p : Option String) (m : MoveDescription) (s' : RoundState)
    (h : (finishIter moves q s p).1 = StepOutcome.committed m s') : False :=
  StepOutcome.noConfusion h

theorem finishIter_clean (moves : List MoveDescription) (q : Nat)
    (s : RoundState) (p : Option String)
    (hbeyond : CleanBeyond q s.preview_length s.display) :
    ∀ s', (finishIter moves q s p).1 = StepOutcome.continueRound s' →
      Clean q s'.display := by
  intro s' h
  unfold finishIter at h
  cases h
  exact clean_clear_of_beyond _ _ _ hbeyond

theorem afterBreak_commit_clean (moves : List MoveDescription) (q : Nat)
    (s : RoundState) (p : Option String)
    (hbeyond : CleanBeyond q s.preview_length s.display) :
    ∀ m s', (afterBreak moves q s p).1 = StepOutcome.committed m s' →
      Clean q s'.display := by
  intro m s' h
  unfold afterBreak at h
  cases hfind : moves.find? (fun x => x.move_id == s.input_choice) with
  | some desc =>
    rw [hfind] at h
    cases h
    exact clean_clear_of_beyond _ _ _ hbeyond
  | none =>
    rw [hfind] at h
    exact StepOutcome.noConfusion h

theorem afterBreak_continue_clean (moves : List MoveDescription) (q : Nat)
    (s : RoundState) (p : Option String)
    (hfull : Clean q s.display ∨
      (moves.find? (fun x => x.move_id == s.input_choice)).isSome = true) :
    ∀ s', (afterBreak moves q s p).1 = StepOutcome.continueRound s' →
      Clean q s'.display := by
  intro s' h
  unfold afterBreak at h
  cases hfind : moves.find? (fun x => x.move_id == s.input_choice) with
  | some desc =>
    rw [hfind] at h
    exact StepOutcome.noConfusion h
  | none =>
    rw [hfind] at h
    cases h
    rcases hfull with hclean | hsome
    · exact clean_msg_lines q s.max_preview_length moves.length s.input_choice
        s.display hclean
    · rw [hfind] at hsome
      simp at hsome

theorem afterWait_clean (moves : List MoveDescription) (q : Nat)
    (s : RoundState) (ev : InputEvent) (p : Option String)
    (hbeyond : CleanBeyond q s.preview_length s.display)
    (hfull : Clean q s.display ∨
      (moves.find? (fun x => x.move_id == s.input_choice)).isSome = true) :
    (∀ m s', (afterWait moves q s ev p).1 = StepOutcome.committed m s' →
      Clean q s'.display) ∧
    (∀ s', (afterWait moves q s ev p).1 = StepOutcome.continueRound s' →
      Clean q s'.display) := by
  unfold afterWait
  cases ev with
  | key code =>
    cases code with
    | char c =>
      dsimp only
      split_ifs
      · exact ⟨fun m s' h => h.elim, fun s' h => h.elim⟩
      · exact ⟨fun m s' h => (finishIter_not_committed _ _ _ _ _ _ h).elim,
          finishIter_clean _ _ _ _ hbeyond⟩
      · exact ⟨fun m s' h => (finishIter_not_committed _ _ _ _ _ _ h).elim,
          finishIter_clean _ _ _ _ hbeyond⟩
    | enter =>
      dsimp only
      exact ⟨afterBreak_commit_clean _ _ _ _ hbeyond,
        afterBreak_continue_clean _ _ _ _ hfull⟩
    | backspace =>
      exact ⟨fun m s' h => (finishIter_not_committed _ _ _ _ _ _ h).elim,
        finishIter_clean _ _ _ _ hbeyond⟩
    | otherKey =>
      exact ⟨fun m s' h => (finishIter_not_committed _ _ _ _ _ _ h).elim,
        finishIter_clean _ _ _ _ hbeyond⟩
  | other =>
    exact ⟨fun m s' h => (finishIter_not_committed _ _ _ _ _ _ h).elim,
      finishIter_clean _ _ _ _ hbeyond⟩

theorem outcome_clean_glue (q : Nat) (o : StepOutcome)
    (hc : ∀ m s', o = StepOutcome.committed m s' → Clean q s'.display)
    (hk : ∀ s', o = StepOutcome.continueRound s' → Clean q s'.display) :
    (o.isCommitted = true → Clean q o.stateOf.display) ∧
    (o.isContinue = true → Clean q o.stateOf.display) := by
  cases o with
  | continueRound s' =>
    exact ⟨fun h => Bool.noConfusion h, fun _ => hk s' rfl⟩
  | committed m s' =>
    exact ⟨fun _ => hc m s' rfl, fun h => Bool.noConfusion h⟩
  | quitGame s' =>
    exact ⟨fun h => Bool.noConfusion h, fun h => Bool.noConfusion h⟩

/-- C5: starting from a screen whose region below the query line holds
no preview content (only blanks or invalid-selection message residue),
and with the pending-preview invariant: when an iteration commits —
Enter on a matching prefix — the returned screen again holds no preview
content below the query line: the full extent of the last painted
preview (whose line count the commit path's `clear_lines` call receives
in `preview_length`) has been cleared before `Committed` is returned.
The same cleanliness is preserved by every continuing iteration, so it
is an invariant of the whole round. -/
theorem claim_C5_commit_clears_preview (moves : List MoveDescription) (q : Nat)
    (render : String → String) (renderWins : Bool) (ev : InputEvent)
    (s : RoundState)
    (hclean : Clean q s.display) (hinv : PreviewInv moves s) :
    ((stepIter moves q render renderWins ev s).1.isCommitted = true →
      Clean q (stepIter moves q render renderWins ev s).1.stateOf.display) ∧
    ((stepIter moves q render renderWins ev s).1.isContinue = true →
      Clean q (stepIter moves q render renderWins ev s).1.stateOf.display) := by
  have h0 : Clean q (setLine s.display q ("? " ++ s.input_choice)) :=
    clean_setLine_query q s.display _ hclean
  cases renderWins <;> cases hp : s.preview
  case false.none =>
    simp only [stepIter, hp]
    have hw := afterWait_clean moves q
      { s with display := setLine s.display q ("? " ++ s.input_choice),
               raw_mode := true, preview := none, preview_length := 0 }
      ev none
      (cleanBeyond_of_clean q 0 _ h0) (Or.inl h0)
    exact outcome_clean_glue q _ hw.1 hw.2
  case false.some b =>
    simp only [stepIter, hp]
    have hw := afterWait_clean moves q
      { s with display := setLine s.display q ("? " ++ s.input_choice),
               raw_mode := true, preview := none, preview_length := 0 }
      ev none
      (cleanBeyond_of_clean q 0 _ h0) (Or.inl h0)
    exact outcome_clean_glue q _ hw.1 hw.2
  case true.none =>
    simp only [stepIter, hp]
    have hw := afterWait_clean moves q
      { s with display := setLine s.display q ("? " ++ s.input_choice),
               raw_mode := true, preview := none, preview_length := 0 }
      ev none
      (cleanBeyond_of_clean q 0 _ h0) (Or.inl h0)
    exact outcome_clean_glue q _ hw.1 hw.2
  case true.some b =>
    simp only [stepIter, hp]
    have hsome : (moves.find? (fun x => x.move_id == s.input_choice)).isSome = true := by
      obtain ⟨m, hm, hid, -⟩ := hinv b hp
      cases hfind : moves.find? (fun x => x.move_id == s.input_choice) with
      | none =>
        exact absurd hid ((find?_move_eq_none_iff moves s.input_choice).mp hfind m hm)
      | some m' => rfl
    have hw := afterWait_clean moves q
      { s with
          display := repaint (q + 1) s.preview_length (render b)
            (setLine s.display q ("? " ++ s.input_choice)),
          raw_mode := true, preview := none,
          preview_length := (rustLines (render b)).length,
          max_preview_length :=
            Nat.max s.max_preview_length (rustLines (render b)).length }
      ev (some (render b))
      (cleanBeyond_repaint q s.preview_length (render b) _ h0) (Or.inr hsome)
    exact outcome_clean_glue q _ hw.1 hw.2

/-- Witness: committing move `"1"` from `sampleS1` on a blank screen
leaves line 7 (below the query line 5) free of preview content. -/
theorem claim_C5_witness :
    (stepIter sampleMoves 5 renderFive false (InputEvent.key KeyCode.enter) sampleS1).1.stateOf.display
        7 = "" ∨
      IsMsgLine
          ((stepIter sampleMoves 5 renderFive false (InputEvent.key KeyCode.enter) sampleS1).1.stateOf.display
            7) =
        true :=
  (claim_C5_commit_clears_preview sampleMoves 5 renderFive false
      (InputEvent.key KeyCode.enter) sampleS1
      (fun j hj => Or.inl rfl) (by intro b hb; cases hb)).1 rfl 7 (by omega)

/-! ## Service-side lemmas: parsing and move selection -/

theorem scan_ok_of (cs : List Char)
    (h : ∀ c ∈ cs, c = '-' ∨ c = 'X' ∨ c = 'O') :
    scanBoard cs = Except.ok (cs, cs.count 'X', cs.count 'O') := by
  induction cs with
  | nil => rfl
  | cons c rest ih =>
    have hc := h c (List.mem_cons_self c rest)
    have hrest := fun x hx => h x (List.mem_cons_of_mem _ hx)
    unfold scanBoard
    rw [if_pos hc, ih hrest]
    by_cases hX : c = 'X' <;> by_cases hO : c = 'O' <;>
      simp [hX, hO, List.count_cons]

theorem scan_ok_sound (cs : List Char) (b : List Char) (nx no : Nat)
    (h : scanBoard cs = Except.ok (b, nx, no)) :
    (∀ c ∈ cs, c = '-' ∨ c = 'X' ∨ c = 'O') ∧ b = cs ∧
      nx = cs.count 'X' ∧ no = cs.count 'O' := by
  induction cs generalizing b nx no with
  | nil =>
    simp only [scanBoard, Except.ok.injEq, Prod.mk.injEq] at h
    obtain ⟨h1, h2, h3⟩ := h
    subst h1; subst h2; subst h3
    simp
  | cons c rest ih =>
    unfold scanBoard at h
    by_cases hc : c = '-' ∨ c = 'X' ∨ c = 'O'
    · rw [if_pos hc] at h
      cases hres : scanBoard rest with
      | ok t =>
        obtain ⟨b', nx', no'⟩ := t
        rw [hres] at h
        simp only [Except.ok.injEq, Prod.mk.injEq] at h
        obtain ⟨h1, h2, h3⟩ := h
        obtain ⟨hall', hb', hnx', hno'⟩ := ih b' nx' no' hres
        subst hb'
        constructor
        · intro x hx
          rcases List.mem_cons.mp hx with hx | hx
          · exact hx ▸ hc
          · exact hall' x hx
        refine ⟨by rw [← h1], ?_, ?_⟩
        · rw [← h2, hnx']
          by_cases hX : c = 'X' <;> simp [hX, List.count_cons]
        · rw [← h3, hno']
          by_cases hO : c = 'O' <;> simp [hO, List.count_cons]
      | error e =>
        rw [hres] at h
        exact Except.noConfusion h
    · rw [if_neg hc] at h
      split_ifs at h

/-- C9: the parse/unparse round trip and the exact domain of `parse`:
it succeeds exactly on length-9 strings over `-`, `X`, `O` whose X-count
minus O-count is 0 (current player `X`) or 1 (current player `O`), its
result's board is the input's character sequence, and `unparse`
restores the input character for character.  Every other input yields
`Err` (the `Except` dichotomy). -/
theorem claim_C9_parse_unparse_round_trip (s : String) :
    (∀ g, TicTacToeGame.parse s = Except.ok g → g.unparse = s) ∧
    (∀ g, TicTacToeGame.parse s = Except.ok g ↔
      (s.data.length = 9 ∧
       (∀ c ∈ s.data, c = '-' ∨ c = 'X' ∨ c = 'O') ∧
       g.board = s.data ∧
       ((s.data.count 'X' = s.data.count 'O' ∧ g.player = 'X') ∨
        (s.data.count 'X' = s.data.count 'O' + 1 ∧ g.player = 'O')))) := by
  have main : ∀ g, TicTacToeGame.parse s = Except.ok g ↔
      (s.data.length = 9 ∧
       (∀ c ∈ s.data, c = '-' ∨ c = 'X' ∨ c = 'O') ∧
       g.board = s.data ∧
       ((s.data.count 'X' = s.data.count 'O' ∧ g.player = 'X') ∨
        (s.data.count 'X' = s.data.count 'O' + 1 ∧ g.player = 'O'))) := by
    intro g
    unfold TicTacToeGame.parse
    split_ifs with hlen
    · constructor
      · intro h; cases h
      · rintro ⟨h9, -⟩; exact absurd h9 hlen
    · have h9 : s.data.length = 9 := by omega
      cases hscan : scanBoard s.data with
      | error e =>
        simp only [hscan]
        constructor
        · intro h; cases h
        · rintro ⟨-, hall, -⟩
          rw [scan_ok_of s.data hall] at hscan
          exact Except.noConfusion hscan
      | ok t =>
        obtain ⟨b, nx, no⟩ := t
        obtain ⟨hall, hb, hnx, hno⟩ := scan_ok_sound s.data b nx no hscan
        subst hb; subst hnx; subst hno
        simp only [hscan]
        split_ifs with hgt h0 h1
        · constructor
          · intro h; cases h
          · rintro ⟨-, -, -, hdis⟩
            rcases hdis with ⟨hcnt, -⟩ | ⟨hcnt, -⟩ <;> omega
        · constructor
          · intro h
            injection h with h
            refine ⟨h9, hall, ?_, Or.inl ⟨by omega, ?_⟩⟩
            · rw [← h]
            · rw [← h]
          · rintro ⟨-, -, hboard, hdis⟩
            obtain ⟨gb, gp⟩ := g
            rcases hdis with ⟨hcnt, hpl⟩ | ⟨hcnt, hpl⟩
            · simp only at hboard hpl
              subst hboard; subst hpl; rfl
            · exact absurd h0 (by omega)
        · constructor
          · intro h
            injection h with h
            refine ⟨h9, hall, ?_, Or.inr ⟨by omega, ?_⟩⟩
            · rw [← h]
            · rw [← h]
          · rintro ⟨-, -, hboard, hdis⟩
            obtain ⟨gb, gp⟩ := g
            rcases hdis with ⟨hcnt, hpl⟩ | ⟨hcnt, hpl⟩
            · exact absurd h1 (by omega)
            · simp only at hboard hpl
              subst hboard; subst hpl; rfl
        · constructor
          · intro h; cases h
          · rintro ⟨-, -, -, hdis⟩
            rcases hdis with ⟨hcnt, -⟩ | ⟨hcnt, -⟩
            · exact absurd (by omega : (↑(s.data.count 'X') : Int) - ↑(s.data.count 'O') = 0) h0
            · exact absurd (by omega : (↑(s.data.count 'X') : Int) - ↑(s.data.count 'O') = 1) h1
  constructor
  · intro g h
    obtain ⟨-, -, hboard, -⟩ := (main g).mp h
    show String.mk g.board = s
    rw [hboard]
  · exact main

/-- Witness: `"XOX------"` parses to the board of its characters with
player `O`, and unparsing restores it. -/
theorem claim_C9_witness :
    TicTacToeGame.unparse ⟨"XOX------".data, 'O'⟩ = "XOX------" :=
  (claim_C9_parse_unparse_round_trip "XOX------").1 ⟨"XOX------".data, 'O'⟩ rfl

/-- C10: `game_core::search` blindly takes `&moves[0]`: on every
non-empty move list it returns the first move, and on the empty list it
panics (modelled as `none`) — so the service's Select command on a
state with no legal moves (here the full board `"XXOOOXXXO"`, which
parses successfully) panics instead of producing an error response
(`none` rather than `some (Except.error ..)`). -/
theorem claim_C10_unguarded_select :
    (∀ (m : game_core.Move) (ms : List game_core.Move),
      game_core.search (m :: ms) = some m) ∧
    game_core.search [] = none ∧
    (∃ g, TicTacToeGame.parse "XXOOOXXXO" = Except.ok g) ∧
    my_handler_select "XXOOOXXXO" = none :=
  ⟨fun m ms => by simp [game_core.search], rfl, ⟨⟨"XXOOOXXXO".data, 'O'⟩, rfl⟩, rfl⟩
